import Mathlib

/-!
Shallow embedding of the particle visualizer (`src/components/Visualizer.tsx`
and the pointer-interactive variant). JS numbers are modelled as real numbers
for the kinematics and as rationals for the exact colour arithmetic;
`Math.random()` is modelled as an explicit stream of values in `[0,1)`.
-/

namespace ParticleViz

/-! ### Colour model (exact, over ℚ)

The solid-mode re-seed effect parses the hex colour string and converts the
normalized RGB channels to HSL.  `parseInt(s, 16)` on a two-character slice is
modelled by `hexPair`; channels are divided by 255.
-/

/-- Value of one hex digit, as `parseInt` base 16 reads it (case-insensitive);
a non-hex character gives `none` (the source would produce `NaN`). -/
def hexDigitVal (c : Char) : Option ℕ :=
  if c.isDigit then some (c.toNat - 48)
  else if 'a' ≤ c ∧ c ≤ 'f' then some (c.toNat - 87)
  else if 'A' ≤ c ∧ c ≤ 'F' then some (c.toNat - 55)
  else none

/-- Two-hex-digit byte, as `parseInt(particleColor.slice(i, i+2), 16)`. -/
def hexPair (c1 c2 : Char) : Option ℕ := do
  let a ← hexDigitVal c1
  let b ← hexDigitVal c2
  pure (16 * a + b)

/-- The three channel reads of the re-seed effect: `slice(1,3)`, `slice(3,5)`,
`slice(5,7)` of a 7-character colour string (the leading `#` is ignored by the
source's slicing), each normalized by 255. -/
def parseHexColor (s : String) : Option (ℚ × ℚ × ℚ) :=
  match s.toList with
  | [_, c1, c2, c3, c4, c5, c6] => do
    let r ← hexPair c1 c2
    let g ← hexPair c3 c4
    let b ← hexPair c5 c6
    pure ((r : ℚ) / 255, (g : ℚ) / 255, (b : ℚ) / 255)
  | _ => none

/-- The 6-way `switch (max)` hue computation of the re-seed effect, before the
`* 60` scaling.  The JS `switch` picks the first matching case, hence the
if-chain order r, g, b. -/
def hue6 (r g b mx d : ℚ) : ℚ :=
  if mx = r then (g - b) / d + (if g < b then 6 else 0)
  else if mx = g then (b - r) / d + 2
  else (r - g) / d + 4

/-- RGB (normalized channels) to HSL, exactly as the re-seed effect computes
it: `l = (max+min)/2`; achromatic case when `max = min`; otherwise
`s = d/(2-max-min)` when `l > 0.5` else `d/(max+min)`, and hue `hue6 * 60`. -/
def rgbToHsl (r g b : ℚ) : ℚ × ℚ × ℚ :=
  let mx := max r (max g b)
  let mn := min r (min g b)
  let l := (mx + mn) / 2
  if mx = mn then (0, 0, l)
  else
    let d := mx - mn
    let s := if l > 1 / 2 then d / (2 - mx - mn) else d / (mx + mn)
    (hue6 r g b mx d * 60, s, l)

/-- What the re-seed effect stores on each particle for a solid colour string:
`hue = h`, `saturation = s * 100`, `brightness = l * 100`. -/
def solidSeed (s : String) : Option (ℚ × ℚ × ℚ) :=
  (parseHexColor s).map (fun c =>
    let r := rgbToHsl c.1 c.2.1 c.2.2
    (r.1, r.2.1 * 100, r.2.2 * 100))

def hexWhite : String := "#ffffff"

def hexRed : String := "#ff0000"

def hexBlack : String := "#000000"

/-- Bounds for the pre-scaling hue: in every branch of the 6-way case the
value lies in `[0, 6)`, provided `d > 0` and every channel lies between
`mx - d` (the minimum) and `mx` (the maximum). -/
theorem hue6_bounds (r g b mx d : ℚ) (hd : 0 < d)
    (hrmx : r ≤ mx) (hgmx : g ≤ mx) (hbmx : b ≤ mx)
    (hrmn : mx - d ≤ r) (hgmn : mx - d ≤ g) (hbmn : mx - d ≤ b) :
    0 ≤ hue6 r g b mx d ∧ hue6 r g b mx d < 6 := by
  unfold hue6
  split_ifs with h1 h2 h3
  · -- max is r, g < b
    have hlo : (-1 : ℚ) ≤ (g - b) / d := by
      rw [le_div_iff₀ hd]; linarith
    have hhi : (g - b) / d < 0 := div_neg_of_neg_of_pos (by linarith) hd
    constructor <;> linarith
  · -- max is r, g ≥ b
    have hlo : (0 : ℚ) ≤ (g - b) / d := div_nonneg (by linarith) hd.le
    have hhi : (g - b) / d ≤ 1 := by
      rw [div_le_one hd]; linarith
    constructor <;> linarith
  · -- max is g
    have hlo : (-1 : ℚ) ≤ (b - r) / d := by
      rw [le_div_iff₀ hd]; linarith
    have hhi : (b - r) / d ≤ 1 := by
      rw [div_le_one hd]; linarith
    constructor <;> linarith
  · -- max is b
    have hlo : (-1 : ℚ) ≤ (r - g) / d := by
      rw [le_div_iff₀ hd]; linarith
    have hhi : (r - g) / d ≤ 1 := by
      rw [div_le_one hd]; linarith
    constructor <;> linarith

/-- The hue produced by the conversion is non-negative and below 360 for all
channel values. -/
theorem rgbToHsl_hue_bounds (r g b : ℚ) :
    0 ≤ (rgbToHsl r g b).1 ∧ (rgbToHsl r g b).1 < 360 := by
  unfold rgbToHsl
  by_cases hmx : max r (max g b) = min r (min g b)
  · rw [if_pos hmx]
    norm_num
  · rw [if_neg hmx]
    have hmnr : min r (min g b) ≤ r := min_le_left _ _
    have hmng : min r (min g b) ≤ g := le_trans (min_le_right _ _) (min_le_left _ _)
    have hmnb : min r (min g b) ≤ b := le_trans (min_le_right _ _) (min_le_right _ _)
    have hmxr : r ≤ max r (max g b) := le_max_left _ _
    have hmxg : g ≤ max r (max g b) := le_trans (le_max_left _ _) (le_max_right _ _)
    have hmxb : b ≤ max r (max g b) := le_trans (le_max_right _ _) (le_max_right _ _)
    have hd : 0 < max r (max g b) - min r (min g b) := by
      rcases lt_or_eq_of_le (le_trans hmnr hmxr) with h | h
      · linarith
      · exact absurd h.symm hmx
    have hb := hue6_bounds r g b (max r (max g b)) (max r (max g b) - min r (min g b))
      hd hmxr hmxg hmxb (by linarith) (by linarith) (by linarith)
    constructor
    · simp only
      linarith [hb.1]
    · simp only
      linarith [hb.2]

/-- C6: the solid-mode RGB→HSL conversion is a pure function of the colour
string satisfying the spec formula; `#ffffff` gives hue 0, saturation 0,
lightness 100; `#ff0000` gives hue 0, saturation 100, lightness 50; `#000000`
gives saturation 0, lightness 0; and the hue is always non-negative and
below 360. -/
theorem C6_rgb_to_hsl :
    solidSeed hexWhite = some (0, 0, 100) ∧
    solidSeed hexRed = some (0, 100, 50) ∧
    solidSeed hexBlack = some (0, 0, 0) ∧
    ∀ r g b : ℚ, 0 ≤ (rgbToHsl r g b).1 ∧ (rgbToHsl r g b).1 < 360 := by
  refine ⟨?_, ?_, ?_, rgbToHsl_hue_bounds⟩
  · simp [solidSeed, hexWhite, parseHexColor, hexPair, hexDigitVal, rgbToHsl, hue6]
  · simp [solidSeed, hexRed, parseHexColor, hexPair, hexDigitVal, rgbToHsl, hue6]
    norm_num
  · simp [solidSeed, hexBlack, parseHexColor, hexPair, hexDigitVal, rgbToHsl, hue6]

/-! ### Data model and simulation engine (over ℝ) -/

/-- The mutable particle record of the source. -/
structure Particle where
  x : ℝ
  y : ℝ
  vx : ℝ
  vy : ℝ
  size : ℝ
  hue : ℝ
  saturation : ℝ
  brightness : ℝ

noncomputable section

/-- JS `Math.atan2(y, x)`: the argument of the complex number `x + y·i`
(angle of the point `(x, y)`, in `(-π, π]`, `0` at the origin). -/
def atan2 (y x : ℝ) : ℝ := Complex.arg ⟨x, y⟩

/-- The constant base movement speed of the draw loop. -/
def baseSpeed : ℝ := 1

/-- The speed-floor step of `draw`: if the current speed is below `baseSpeed`,
reset the velocity to `baseSpeed` along the heading `atan2(vy, vx)`. -/
def speedFloor (vx vy : ℝ) : ℝ × ℝ :=
  if Real.sqrt (vx * vx + vy * vy) < baseSpeed then
    (Real.cos (atan2 vy vx) * baseSpeed, Real.sin (atan2 vy vx) * baseSpeed)
  else (vx, vy)

/-- One axis of the wall bounce: below 0, clamp to 0 and force the velocity
positive; above the limit, clamp to the limit and force it negative. -/
def clampReflect (limit x v : ℝ) : ℝ × ℝ :=
  if x < 0 then (0, |v|)
  else if x > limit then (limit, -|v|)
  else (x, v)

/-- The `dx` local of the mouse-repulsion block. -/
def mouseDx (mouse : ℝ × ℝ) (p : Particle) : ℝ := p.x - mouse.1

/-- The `dy` local of the mouse-repulsion block. -/
def mouseDy (mouse : ℝ × ℝ) (p : Particle) : ℝ := p.y - mouse.2

/-- The `distance` local of the mouse-repulsion block. -/
def mouseDist (mouse : ℝ × ℝ) (p : Particle) : ℝ :=
  Real.sqrt (mouseDx mouse p * mouseDx mouse p + mouseDy mouse p * mouseDy mouse p)

/-- The mouse-repulsion step of the pointer-interactive variant: within the
repulsion radius, add `cos(angle)·force·strength` to `vx` and the sine term
to `vy`, where `force = (radius - d)/radius` and `angle = atan2(dy, dx)`. -/
def repulse (mouse : ℝ × ℝ) (radius strength : ℝ) (p : Particle) : Particle :=
  if mouseDist mouse p < radius then
    let force := (radius - mouseDist mouse p) / radius
    let angle := atan2 (mouseDy mouse p) (mouseDx mouse p)
    { p with vx := p.vx + Real.cos angle * force * strength,
             vy := p.vy + Real.sin angle * force * strength }
  else p

/-- One particle's kinematics for one tick of `draw` in the non-interactive
variant: speed floor, position integration, wall bounce. -/
def stepParticle (w h : ℝ) (p : Particle) : Particle :=
  let v := speedFloor p.vx p.vy
  let xr := clampReflect w (p.x + v.1) v.1
  let yr := clampReflect h (p.y + v.2) v.2
  { p with x := xr.1, vx := xr.2, y := yr.1, vy := yr.2 }

/-- One particle's kinematics for one tick of `draw` in the
pointer-interactive variant: mouse repulsion, then the shared step. -/
def stepParticleMouse (mouse : ℝ × ℝ) (radius strength w h : ℝ) (p : Particle) :
    Particle :=
  stepParticle w h (repulse mouse radius strength p)

/-- `createParticle`, with the five `Math.random()` calls made explicit as a
stream `rnd` of values in `[0, 1)`. -/
def createParticle (w h psize : ℝ) (rnd : ℕ → ℝ) : Particle :=
  { x := rnd 0 * w, y := rnd 1 * h,
    vx := (rnd 2 - 0.5) * 2, vy := (rnd 3 - 0.5) * 2,
    size := psize, hue := rnd 4 * 360, saturation := 100, brightness := 100 }

/-- The initializer of the init/resize effect:
`Array.from({length: n}, createParticle)`, each call drawing fresh
randomness. -/
def initParticles (w h psize : ℝ) (rnd : ℕ → ℝ) (n : ℕ) : List Particle :=
  (List.range n).map (fun i => createParticle w h psize (fun j => rnd (5 * i + j)))

/-- The init/resize effect body on a particle-count change: the previous list
is not consulted; `particlesRef.current` is replaced wholesale by a freshly
created array of `n` particles. -/
def resizeParticles (w h psize : ℝ) (rnd : ℕ → ℝ) (n : ℕ)
    (old : List Particle) : List Particle :=
  initParticles w h psize rnd n

/-! ### Render engine -/

/-- The connection-line opacity: `0.2 * (1 - distance/connectionDistance)`. -/
def lineOpacity (cd d : ℝ) : ℝ := 0.2 * (1 - d / cd)

/-- The pairwise distance of the inner connection loop:
`sqrt(dx*dx + dy*dy)` on the two particles' current positions. -/
def dist2 (p q : Particle) : ℝ :=
  Real.sqrt ((p.x - q.x) * (p.x - q.x) + (p.y - q.y) * (p.y - q.y))

/-- A drawn connection line: endpoints, distance, opacity. -/
structure LineSeg where
  a : ℝ × ℝ
  b : ℝ × ℝ
  d : ℝ
  opacity : ℝ

/-- The inner loop `for j = i+1 ...`: a line from `p` to each particle of
`rest` strictly closer than the connection distance. -/
def linesFrom (cd : ℝ) (p : Particle) (rest : List Particle) : List LineSeg :=
  rest.filterMap (fun q =>
    if dist2 p q < cd then
      some ⟨(p.x, p.y), (q.x, q.y), dist2 p q, lineOpacity cd (dist2 p q)⟩
    else none)

/-- The fused update-and-draw loop of `draw`: particle `i` is advanced, its
position painted, and its connection lines measured against the particles
after it in the list, which have not yet been advanced this tick. -/
def fusedFrame (w h cd : ℝ) : List Particle → List (ℝ × ℝ) × List LineSeg
  | [] => ([], [])
  | p :: rest =>
    let p' := stepParticle w h p
    let r := fusedFrame w h cd rest
    ((p'.x, p'.y) :: r.1, linesFrom cd p' rest ++ r.2)

/-- Pairwise connection lines over an already fully advanced list. -/
def splitLines (cd : ℝ) : List Particle → List LineSeg
  | [] => []
  | p :: rest => linesFrom cd p rest ++ splitLines cd rest

/-- The phase-split reading of the spec: advance every particle's kinematics
first, then paint all positions and measure all pairwise lines. -/
def splitFrame (w h cd : ℝ) (ps : List Particle) : List (ℝ × ℝ) × List LineSeg :=
  ((ps.map (stepParticle w h)).map (fun p => (p.x, p.y)),
   splitLines cd (ps.map (stepParticle w h)))

/-- One scheduled callback of `draw`, reduced to its state effect and whether
it requests the next frame: both early returns (`!canvas || !ctx`, empty
particle list) skip the trailing `requestAnimationFrame`. -/
def drawTick (w h : ℝ) (ctxOk : Bool) (ps : List Particle) :
    List Particle × Bool :=
  if ctxOk = false then (ps, false)
  else if ps.isEmpty then (ps, false)
  else (ps.map (stepParticle w h), true)

/-! ### Colour resolution and line styling -/

inductive ColorMode where
  | solid : ColorMode
  | rainbow : ColorMode

/-- An `hsl(h, s%, l%)` colour string, kept as its three components. -/
structure HSL where
  h : ℝ
  s : ℝ
  l : ℝ

/-- Truncation toward zero, as JS number-to-integer conversion in `%`. -/
def jsTrunc (x : ℝ) : ℤ := if 0 ≤ x then ⌊x⌋ else ⌈x⌉

/-- The JS remainder operator `a % b` on numbers (sign of the dividend). -/
def jsMod (a b : ℝ) : ℝ := a - b * jsTrunc (a / b)

/-- `getParticleColor`: in rainbow mode the particle's stored hue is advanced
by `(hue + 1) % 360` and the colour is `hsl(hue, 100%, 50%)`; in solid mode
the particle is untouched and the stored triple is returned. -/
def getParticleColor (mode : ColorMode) (p : Particle) : Particle × HSL :=
  match mode with
  | ColorMode.rainbow =>
    let p' := { p with hue := jsMod (p.hue + 1) 360 }
    (p', ⟨p'.hue, 100, 50⟩)
  | ColorMode.solid => (p, ⟨p.hue, p.saturation, p.brightness⟩)

inductive LineStyle where
  | solid : LineStyle
  | dashed : LineStyle
  | gradient : LineStyle

/-- A stroke style: plain white at an opacity, or a two-stop gradient. -/
inductive Stroke where
  | white : ℝ → Stroke
  | grad : HSL → HSL → Stroke

/-- What one `drawLine` call paints and mutates: the two (possibly
hue-advanced) endpoint particles, the stroke style, and the dash flag. -/
structure LineRender where
  q1 : Particle
  q2 : Particle
  stroke : Stroke
  dashed : Bool

/-- `drawLine`: dashed style sets the dash pattern; gradient style builds the
stroke from the two endpoints' resolved colours (ignoring the opacity
argument); otherwise the stroke is white at the computed opacity. -/
def drawLine (style : LineStyle) (mode : ColorMode) (p1 p2 : Particle)
    (opacity : ℝ) : LineRender :=
  let dsh : Bool := match style with
    | LineStyle.dashed => true
    | _ => false
  match style with
  | LineStyle.gradient =>
    let r1 := getParticleColor mode p1
    let r2 := getParticleColor mode p2
    ⟨r1.1, r2.1, Stroke.grad r1.2 r2.2, dsh⟩
  | _ => ⟨p1, p2, Stroke.white opacity, dsh⟩

/-! ### Concrete fixtures used by counterexamples and witnesses -/

/-- A concrete pre-existing particle. -/
def pOld : Particle := ⟨5, 6, 1, 0, 2, 10, 100, 100⟩

/-- A degenerate randomness stream: every `Math.random()` call returns 0. -/
def rndZero : ℕ → ℝ := fun _ => 0

/-- A randomness stream returning 1/2 on every call. -/
def rndHalf : ℕ → ℝ := fun _ => 1 / 2

/-- A particle at (10,10) moving right at unit speed. -/
def pA : Particle := ⟨10, 10, 1, 0, 2, 0, 100, 100⟩

/-- A particle at (20,10) moving right at unit speed. -/
def pB : Particle := ⟨20, 10, 1, 0, 2, 0, 100, 100⟩

/-- A stationary particle at (3,4), used against a pointer at the origin. -/
def pC4 : Particle := ⟨3, 4, 0, 0, 2, 0, 100, 100⟩

/-- The expected advance of `pA` after one tick. -/
def pA' : Particle := ⟨11, 10, 1, 0, 2, 0, 100, 100⟩

/-- The expected advance of `pB` after one tick. -/
def pB' : Particle := ⟨21, 10, 1, 0, 2, 0, 100, 100⟩

end

/-! ### Claim theorems -/

/-- C1 counterexample: resizing a one-particle list to count 1 with the
all-zero randomness stream produces a particle at `x = 0`, discarding the
original particle's position `x = 5`: the resize effect recreates every
particle rather than keeping the original particles' state. -/
theorem C1_counterexample :
    (resizeParticles 1000 800 2 rndZero 1 [pOld]).map Particle.x ≠
      [pOld].map Particle.x := by
  simp [resizeParticles, initParticles, createParticle, rndZero, pOld]

/-- C1 (amended): after the resize effect runs, the particle list's length is
exactly the externally configured count, for every configured count and every
previous list. -/
theorem C1_resize_length (w h psize : ℝ) (rnd : ℕ → ℝ) (n : ℕ)
    (old : List Particle) : (resizeParticles w h psize rnd n old).length = n := by
  simp [resizeParticles, initParticles]

/-- Both clamp branches and the pass-through branch of the wall bounce land
in `[0, limit]`. -/
theorem clampReflect_bounds (limit x v : ℝ) (hl : 0 ≤ limit) :
    0 ≤ (clampReflect limit x v).1 ∧ (clampReflect limit x v).1 ≤ limit := by
  unfold clampReflect
  split_ifs with h1 h2
  · exact ⟨le_refl 0, hl⟩
  · exact ⟨hl, le_refl limit⟩
  · exact ⟨not_lt.mp h1, not_lt.mp h2⟩

/-- The shared per-tick kinematics end with the wall bounce, so the resulting
position is always inside the surface. -/
theorem stepParticle_mem (w h : ℝ) (p : Particle) (hw : 0 ≤ w) (hh : 0 ≤ h) :
    0 ≤ (stepParticle w h p).x ∧ (stepParticle w h p).x ≤ w ∧
    0 ≤ (stepParticle w h p).y ∧ (stepParticle w h p).y ≤ h := by
  have hx := clampReflect_bounds w (p.x + (speedFloor p.vx p.vy).1)
    (speedFloor p.vx p.vy).1 hw
  have hy := clampReflect_bounds h (p.y + (speedFloor p.vx p.vy).2)
    (speedFloor p.vx p.vy).2 hh
  exact ⟨hx.1, hx.2, hy.1, hy.2⟩

/-- C2: after the simulation step of a tick — in either variant — the
particle's position lies in `[0, w] × [0, h]`, and a freshly created particle
is positioned within the surface bounds, given randomness in `[0, 1)`. -/
theorem C2_position_bounds (mouse : ℝ × ℝ) (radius strength w h psize : ℝ)
    (p : Particle) (rnd : ℕ → ℝ) (hw : 0 ≤ w) (hh : 0 ≤ h)
    (hr : ∀ i, 0 ≤ rnd i ∧ rnd i < 1) :
    (0 ≤ (stepParticleMouse mouse radius strength w h p).x ∧
     (stepParticleMouse mouse radius strength w h p).x ≤ w ∧
     0 ≤ (stepParticleMouse mouse radius strength w h p).y ∧
     (stepParticleMouse mouse radius strength w h p).y ≤ h) ∧
    (0 ≤ (stepParticle w h p).x ∧ (stepParticle w h p).x ≤ w ∧
     0 ≤ (stepParticle w h p).y ∧ (stepParticle w h p).y ≤ h) ∧
    (0 ≤ (createParticle w h psize rnd).x ∧ (createParticle w h psize rnd).x ≤ w ∧
     0 ≤ (createParticle w h psize rnd).y ∧ (createParticle w h psize rnd).y ≤ h) := by
  refine ⟨stepParticle_mem w h (repulse mouse radius strength p) hw hh,
    stepParticle_mem w h p hw hh, ?_, ?_, ?_, ?_⟩
  · exact mul_nonneg (hr 0).1 hw
  · exact mul_le_of_le_one_left hw (hr 0).2.le
  · exact mul_nonneg (hr 1).1 hh
  · exact mul_le_of_le_one_left hh (hr 1).2.le

/-- C2 witness: concrete bounds on a 100 × 80 surface with the constant-1/2
randomness stream and the particle `pOld`. -/
theorem C2_witness :
    0 ≤ (stepParticleMouse (0, 0) 80 3 100 80 pOld).x ∧
    (stepParticleMouse (0, 0) 80 3 100 80 pOld).x ≤ 100 ∧
    0 ≤ (stepParticle 100 80 pOld).y ∧ (stepParticle 100 80 pOld).y ≤ 80 ∧
    0 ≤ (createParticle 100 80 2 rndHalf).x ∧
    (createParticle 100 80 2 rndHalf).x ≤ 100 := by
  have hfull := C2_position_bounds (0, 0) 80 3 100 80 2 pOld rndHalf
    (by norm_num) (by norm_num) (fun i => by norm_num [rndHalf])
  exact ⟨hfull.1.1, hfull.1.2.1, hfull.2.1.2.2.1, hfull.2.1.2.2.2,
    hfull.2.2.1, hfull.2.2.2.1⟩

/-- A velocity reset along any heading has magnitude exactly `baseSpeed`. -/
theorem floored_speed (θ : ℝ) :
    Real.sqrt (Real.cos θ * baseSpeed * (Real.cos θ * baseSpeed) +
      Real.sin θ * baseSpeed * (Real.sin θ * baseSpeed)) = baseSpeed := by
  have hone : Real.cos θ * baseSpeed * (Real.cos θ * baseSpeed) +
      Real.sin θ * baseSpeed * (Real.sin θ * baseSpeed) = 1 := by
    have hpyth := Real.sin_sq_add_cos_sq θ
    simp only [baseSpeed, mul_one]
    nlinarith [hpyth]
  rw [hone, Real.sqrt_one]
  rfl

/-- C3: after the speed-floor step the speed is at least `baseSpeed = 1`;
an incoming speed below the floor is reset to magnitude exactly `baseSpeed`
along the heading `atan2(vy, vx)`, and an incoming speed at or above the
floor passes through unchanged (there is no maximum-speed cap). -/
theorem C3_speed_floor (vx vy : ℝ) :
    baseSpeed ≤ Real.sqrt ((speedFloor vx vy).1 * (speedFloor vx vy).1 +
      (speedFloor vx vy).2 * (speedFloor vx vy).2) ∧
    (Real.sqrt (vx * vx + vy * vy) < baseSpeed →
      speedFloor vx vy =
        (Real.cos (atan2 vy vx) * baseSpeed, Real.sin (atan2 vy vx) * baseSpeed) ∧
      Real.sqrt ((speedFloor vx vy).1 * (speedFloor vx vy).1 +
        (speedFloor vx vy).2 * (speedFloor vx vy).2) = baseSpeed) ∧
    (baseSpeed ≤ Real.sqrt (vx * vx + vy * vy) → speedFloor vx vy = (vx, vy)) := by
  by_cases hs : Real.sqrt (vx * vx + vy * vy) < baseSpeed
  · have hv : speedFloor vx vy =
        (Real.cos (atan2 vy vx) * baseSpeed, Real.sin (atan2 vy vx) * baseSpeed) := by
      unfold speedFloor
      rw [if_pos hs]
    refine ⟨?_, fun _ => ⟨hv, ?_⟩, fun hge => absurd hs (not_lt.mpr hge)⟩
    · rw [hv]
      exact (floored_speed (atan2 vy vx)).ge
    · rw [hv]
      exact floored_speed (atan2 vy vx)
  · have hv : speedFloor vx vy = (vx, vy) := by
      unfold speedFloor
      rw [if_neg hs]
    refine ⟨?_, fun hlt => absurd hlt hs, fun _ => hv⟩
    rw [hv]
    exact not_lt.mp hs

/-- C4: within the repulsion radius the velocity delta is exactly
`(cos(angle)·force·strength, sin(angle)·force·strength)` with
`force = (radius - d)/radius` and `angle = atan2(dy, dx)`, and position is
untouched; at or beyond the radius the particle is unchanged; and for
`0 < d < radius` the delta is a non-negative multiple of `(dx, dy)`, i.e. it
points directly away from the pointer. -/
theorem C4_repulsion (mouse : ℝ × ℝ) (radius strength : ℝ) (p : Particle)
    (hrad : 0 < radius) (hstr : 0 ≤ strength) :
    (mouseDist mouse p < radius →
      (repulse mouse radius strength p).vx =
        p.vx + Real.cos (atan2 (mouseDy mouse p) (mouseDx mouse p)) *
          ((radius - mouseDist mouse p) / radius) * strength ∧
      (repulse mouse radius strength p).vy =
        p.vy + Real.sin (atan2 (mouseDy mouse p) (mouseDx mouse p)) *
          ((radius - mouseDist mouse p) / radius) * strength ∧
      (repulse mouse radius strength p).x = p.x ∧
      (repulse mouse radius strength p).y = p.y) ∧
    (radius ≤ mouseDist mouse p → repulse mouse radius strength p = p) ∧
    (0 < mouseDist mouse p → mouseDist mouse p < radius →
      ∃ c : ℝ, 0 ≤ c ∧
        (repulse mouse radius strength p).vx - p.vx = c * mouseDx mouse p ∧
        (repulse mouse radius strength p).vy - p.vy = c * mouseDy mouse p) := by
  refine ⟨fun hlt => ?_, fun hge => ?_, fun hd hlt => ?_⟩
  · unfold repulse
    rw [if_pos hlt]
    exact ⟨rfl, rfl, rfl, rfl⟩
  · unfold repulse
    rw [if_neg (not_lt.mpr hge)]
  · have hz : (⟨mouseDx mouse p, mouseDy mouse p⟩ : ℂ) ≠ 0 := by
      intro hzero
      have hre : mouseDx mouse p = 0 := congrArg Complex.re hzero
      have him : mouseDy mouse p = 0 := congrArg Complex.im hzero
      have : mouseDist mouse p = 0 := by
        unfold mouseDist
        rw [hre, him]
        simp
      linarith
    have habs : Complex.abs ⟨mouseDx mouse p, mouseDy mouse p⟩ = mouseDist mouse p := by
      rw [Complex.abs_apply, Complex.normSq_mk]
      rfl
    have hcos : Real.cos (atan2 (mouseDy mouse p) (mouseDx mouse p)) =
        mouseDx mouse p / mouseDist mouse p := by
      have hc := Complex.cos_arg hz
      rw [habs] at hc
      exact hc
    have hsin : Real.sin (atan2 (mouseDy mouse p) (mouseDx mouse p)) =
        mouseDy mouse p / mouseDist mouse p := by
      have hc := Complex.sin_arg (⟨mouseDx mouse p, mouseDy mouse p⟩ : ℂ)
      rw [habs] at hc
      exact hc
    have hvx : (repulse mouse radius strength p).vx =
        p.vx + Real.cos (atan2 (mouseDy mouse p) (mouseDx mouse p)) *
          ((radius - mouseDist mouse p) / radius) * strength := by
      unfold repulse
      rw [if_pos hlt]
    have hvy : (repulse mouse radius strength p).vy =
        p.vy + Real.sin (atan2 (mouseDy mouse p) (mouseDx mouse p)) *
          ((radius - mouseDist mouse p) / radius) * strength := by
      unfold repulse
      rw [if_pos hlt]
    refine ⟨(radius - mouseDist mouse p) / radius * strength / mouseDist mouse p,
      div_nonneg (mul_nonneg (div_nonneg (by linarith) hrad.le) hstr) hd.le, ?_, ?_⟩
    · rw [hvx, hcos]
      field_simp
      ring
    · rw [hvy, hsin]
      field_simp
      ring

/-- C4 witness: a particle at `(3, 4)` with the pointer at the origin is at
distance 5; with radius 10 and strength 2 the repulsion applies the exact
formula and the delta is a non-negative multiple of `(dx, dy) = (3, 4)`. -/
theorem C4_witness :
    mouseDist (0, 0) pC4 = 5 ∧
    (repulse (0, 0) 10 2 pC4).vx =
      pC4.vx + Real.cos (atan2 (mouseDy (0, 0) pC4) (mouseDx (0, 0) pC4)) *
        ((10 - mouseDist (0, 0) pC4) / 10) * 2 ∧
    ∃ c : ℝ, 0 ≤ c ∧
      (repulse (0, 0) 10 2 pC4).vx - pC4.vx = c * mouseDx (0, 0) pC4 ∧
      (repulse (0, 0) 10 2 pC4).vy - pC4.vy = c * mouseDy (0, 0) pC4 := by
  have h25 : mouseDx (0, 0) pC4 * mouseDx (0, 0) pC4 +
      mouseDy (0, 0) pC4 * mouseDy (0, 0) pC4 = 25 := by
    norm_num [mouseDx, mouseDy, pC4]
  have hdist : mouseDist (0, 0) pC4 = 5 := by
    unfold mouseDist
    rw [h25, show (25 : ℝ) = 5 ^ 2 by norm_num,
      Real.sqrt_sq (by norm_num : (0 : ℝ) ≤ 5)]
  have h := C4_repulsion (0, 0) 10 2 pC4 (by norm_num) (by norm_num)
  exact ⟨hdist, (h.1 (by rw [hdist]; norm_num)).1,
    h.2.2 (by rw [hdist]; norm_num) (by rw [hdist]; norm_num)⟩

/-- C5 counterexample: at distance 0 the connection-line opacity is 0.2, not
1 — the line is at its maximal opacity there but not fully opaque. -/
theorem C5_counterexample : lineOpacity 200 0 = 0.2 ∧ (0.2 : ℝ) ≠ 1 := by
  constructor
  · norm_num [lineOpacity]
  · norm_num

/-- C5 (amended): a connection line is drawn exactly when the distance is
strictly below the connection distance, with opacity
`0.2·(1 - d/connectionDistance)`; the opacity is strictly decreasing in the
distance, is exactly 0 at `d = connectionDistance`, and attains its maximum
value 0.2 (not full opacity) at distance 0. -/
theorem C5_connection_lines (cd : ℝ) (hcd : 0 < cd) :
    (∀ d1 d2 : ℝ, d1 < d2 → lineOpacity cd d2 < lineOpacity cd d1) ∧
    lineOpacity cd cd = 0 ∧
    lineOpacity cd 0 = 0.2 ∧
    (∀ p q : Particle,
      (dist2 p q < cd → linesFrom cd p [q] =
        [⟨(p.x, p.y), (q.x, q.y), dist2 p q, lineOpacity cd (dist2 p q)⟩]) ∧
      (cd ≤ dist2 p q → linesFrom cd p [q] = [])) := by
  refine ⟨fun d1 d2 hlt => ?_, ?_, ?_, fun p q => ⟨fun hlt => ?_, fun hge => ?_⟩⟩
  · unfold lineOpacity
    have hdiv : d1 / cd < d2 / cd := (div_lt_div_iff_of_pos_right hcd).mpr hlt
    nlinarith [hdiv]
  · unfold lineOpacity
    rw [div_self (ne_of_gt hcd)]
    norm_num
  · unfold lineOpacity
    norm_num
  · unfold linesFrom
    simp only [List.filterMap_cons, List.filterMap_nil]
    rw [if_pos hlt]
  · unfold linesFrom
    simp only [List.filterMap_cons, List.filterMap_nil]
    rw [if_neg (not_lt.mpr hge)]

/-- C5 witness: with connection distance 200, the opacity is 0 at distance
200, 0.2 at distance 0, and strictly smaller at distance 100 than at 50. -/
theorem C5_witness :
    lineOpacity 200 200 = 0 ∧ lineOpacity 200 0 = 0.2 ∧
    lineOpacity 200 100 < lineOpacity 200 50 :=
  ⟨(C5_connection_lines 200 (by norm_num)).2.1,
   (C5_connection_lines 200 (by norm_num)).2.2.1,
   (C5_connection_lines 200 (by norm_num)).1 50 100 (by norm_num)⟩

/-- Unit-speed horizontal motion passes the speed floor unchanged. -/
theorem speedFloor_unit : speedFloor 1 0 = (1, 0) := by
  have hs : Real.sqrt ((1 : ℝ) * 1 + 0 * 0) = 1 := by
    rw [show (1 : ℝ) * 1 + 0 * 0 = 1 by norm_num]
    exact Real.sqrt_one
  unfold speedFloor
  rw [if_neg]
  rw [hs]
  unfold baseSpeed
  exact lt_irrefl 1

/-- One tick advances `pA` to `pA'`. -/
theorem step_pA : stepParticle 1000 800 pA = pA' := by
  unfold stepParticle pA pA'
  rw [show (Particle.mk 10 10 1 0 2 0 100 100).vx = 1 from rfl,
    show (Particle.mk 10 10 1 0 2 0 100 100).vy = 0 from rfl, speedFloor_unit]
  norm_num [clampReflect]

/-- One tick advances `pB` to `pB'`. -/
theorem step_pB : stepParticle 1000 800 pB = pB' := by
  unfold stepParticle pB pB'
  rw [show (Particle.mk 20 10 1 0 2 0 100 100).vx = 1 from rfl,
    show (Particle.mk 20 10 1 0 2 0 100 100).vy = 0 from rfl, speedFloor_unit]
  norm_num [clampReflect]

/-- In the fused loop, the line for the pair is measured from the advanced
`pA'` to the still-unadvanced `pB`, at distance 9. -/
theorem dist_pA'_pB : dist2 pA' pB = 9 := by
  have h81 : (pA'.x - pB.x) * (pA'.x - pB.x) + (pA'.y - pB.y) * (pA'.y - pB.y) = 81 := by
    norm_num [pA', pB]
  unfold dist2
  rw [h81, show (81 : ℝ) = 9 ^ 2 by norm_num,
    Real.sqrt_sq (by norm_num : (0 : ℝ) ≤ 9)]

/-- In the phase-split reading, both particles are advanced first, so the
pair is at distance 10. -/
theorem dist_pA'_pB' : dist2 pA' pB' = 10 := by
  have h100 : (pA'.x - pB'.x) * (pA'.x - pB'.x) + (pA'.y - pB'.y) * (pA'.y - pB'.y) = 100 := by
    norm_num [pA', pB']
  unfold dist2
  rw [h100, show (100 : ℝ) = 10 ^ 2 by norm_num,
    Real.sqrt_sq (by norm_num : (0 : ℝ) ≤ 10)]

/-- C7 counterexample: on the two-particle list `[pA, pB]` the fused loop's
frame differs from the phase-split frame — the fused loop measures the
connection line against the not-yet-advanced `pB` (endpoint `(20,10)`,
distance 9) while the phase-split embedding measures it against the advanced
`pB'` (endpoint `(21,10)`, distance 10). -/
theorem C7_counterexample :
    fusedFrame 1000 800 200 [pA, pB] ≠ splitFrame 1000 800 200 [pA, pB] := by
  have hfused : (fusedFrame 1000 800 200 [pA, pB]).2 =
      [⟨(pA'.x, pA'.y), (pB.x, pB.y), dist2 pA' pB, lineOpacity 200 (dist2 pA' pB)⟩] := by
    simp only [fusedFrame, step_pA, step_pB, linesFrom, List.filterMap_cons,
      List.filterMap_nil, List.append_nil]
    rw [if_pos (by rw [dist_pA'_pB]; norm_num)]
  have hsplit : (splitFrame 1000 800 200 [pA, pB]).2 =
      [⟨(pA'.x, pA'.y), (pB'.x, pB'.y), dist2 pA' pB', lineOpacity 200 (dist2 pA' pB')⟩] := by
    simp only [splitFrame, List.map_cons, List.map_nil, step_pA, step_pB,
      splitLines, linesFrom, List.filterMap_cons, List.filterMap_nil, List.append_nil]
    rw [if_pos (by rw [dist_pA'_pB']; norm_num)]
  intro hEq
  have h2 : (fusedFrame 1000 800 200 [pA, pB]).2 = (splitFrame 1000 800 200 [pA, pB]).2 := by
    rw [hEq]
  rw [hfused, hsplit] at h2
  simp only [List.cons.injEq, and_true, LineSeg.mk.injEq, Prod.mk.injEq] at h2
  have hx : pB.x = pB'.x := h2.2.1.1
  rw [pB, pB'] at hx
  norm_num at hx

/-- C7 (amended): the fused per-particle loop paints exactly the same particle
positions as an embedding that advances every particle before any drawing;
the two differ only in the connection lines, which the fused loop measures
against not-yet-advanced later particles. -/
theorem C7_positions_agree (w h cd : ℝ) (ps : List Particle) :
    (fusedFrame w h cd ps).1 = (splitFrame w h cd ps).1 := by
  induction ps with
  | nil => rfl
  | cons p rest ih =>
    have ih' : (fusedFrame w h cd rest).1 =
        (rest.map (stepParticle w h)).map (fun q => (q.x, q.y)) := ih
    simp only [fusedFrame, splitFrame, List.map_cons]
    rw [ih']

/-- C8 counterexample: when the drawing context cannot be acquired, `draw`
returns before the trailing `requestAnimationFrame`, so the tick leaves the
state unchanged but does not schedule a next callback — contradicting the
claim that the loop retries on the next scheduled callback. -/
theorem C8_counterexample :
    drawTick 1000 800 false [pOld] = ([pOld], false) ∧ false ≠ true := by
  constructor
  · simp [drawTick]
  · simp

/-- C8 (amended): with the drawing context unavailable the frame is skipped
silently and no particle state is advanced, but no next frame is requested:
the callback chain halts until an effect re-issues the frame request. -/
theorem C8_ctx_unavailable (w h : ℝ) (ps : List Particle) :
    drawTick w h false ps = (ps, false) := by
  simp [drawTick]

/-- C9: solid-mode colour resolution returns the stored triple and leaves the
particle unchanged; rainbow-mode resolution changes no field except the hue,
which it advances by exactly 1 degree modulo 360 (staying in `[0, 360)`
whenever the stored hue was in `[0, 360)`). -/
theorem C9_color_resolution (p : Particle) :
    getParticleColor ColorMode.solid p = (p, ⟨p.hue, p.saturation, p.brightness⟩) ∧
    ((getParticleColor ColorMode.rainbow p).1.x = p.x ∧
     (getParticleColor ColorMode.rainbow p).1.y = p.y ∧
     (getParticleColor ColorMode.rainbow p).1.vx = p.vx ∧
     (getParticleColor ColorMode.rainbow p).1.vy = p.vy ∧
     (getParticleColor ColorMode.rainbow p).1.size = p.size ∧
     (getParticleColor ColorMode.rainbow p).1.saturation = p.saturation ∧
     (getParticleColor ColorMode.rainbow p).1.brightness = p.brightness) ∧
    (0 ≤ p.hue → p.hue < 360 →
      (getParticleColor ColorMode.rainbow p).1.hue =
        (if p.hue + 1 < 360 then p.hue + 1 else p.hue + 1 - 360) ∧
      0 ≤ (getParticleColor ColorMode.rainbow p).1.hue ∧
      (getParticleColor ColorMode.rainbow p).1.hue < 360) := by
  refine ⟨rfl, ⟨rfl, rfl, rfl, rfl, rfl, rfl, rfl⟩, fun h0 h360 => ?_⟩
  have hhue : (getParticleColor ColorMode.rainbow p).1.hue = jsMod (p.hue + 1) 360 := rfl
  have htr : jsTrunc ((p.hue + 1) / 360) = ⌊(p.hue + 1) / 360⌋ := by
    unfold jsTrunc
    rw [if_pos (div_nonneg (by linarith) (by norm_num))]
  by_cases hlt : p.hue + 1 < 360
  · have hfl : ⌊(p.hue + 1) / 360⌋ = 0 := by
      rw [Int.floor_eq_zero_iff]
      constructor
      · exact div_nonneg (by linarith) (by norm_num)
      · rw [div_lt_one (by norm_num)]
        exact hlt
    have : jsMod (p.hue + 1) 360 = p.hue + 1 := by
      unfold jsMod
      rw [htr, hfl]
      norm_num
    rw [hhue, this, if_pos hlt]
    refine ⟨rfl, by linarith, hlt⟩
  · have hge : (360 : ℝ) ≤ p.hue + 1 := not_lt.mp hlt
    have hfl : ⌊(p.hue + 1) / 360⌋ = 1 := by
      rw [Int.floor_eq_iff]
      constructor
      · rw [Int.cast_one, le_div_iff₀ (by norm_num)]
        linarith
      · rw [div_lt_iff₀ (by norm_num)]
        push_cast
        linarith
    have : jsMod (p.hue + 1) 360 = p.hue + 1 - 360 := by
      unfold jsMod
      rw [htr, hfl]
      norm_num
    rw [hhue, this, if_neg hlt]
    refine ⟨rfl, by linarith, by linarith⟩

/-- C10: with the gradient line style, the stroke is built only from the two
endpoints' resolved colours; the computed distance opacity is never applied
to it (the whole render is independent of the opacity argument), while the
solid and dashed styles stroke white at exactly that opacity. -/
theorem C10_gradient_stroke (mode : ColorMode) (p1 p2 : Particle) (o o' : ℝ) :
    (drawLine LineStyle.gradient mode p1 p2 o).stroke =
      Stroke.grad (getParticleColor mode p1).2 (getParticleColor mode p2).2 ∧
    drawLine LineStyle.gradient mode p1 p2 o =
      drawLine LineStyle.gradient mode p1 p2 o' ∧
    (drawLine LineStyle.solid mode p1 p2 o).stroke = Stroke.white o ∧
    (drawLine LineStyle.dashed mode p1 p2 o).stroke = Stroke.white o := by
  exact ⟨rfl, rfl, rfl, rfl⟩

end ParticleViz
